import Mathlib

/-!
Verification of the interactive multi-select widget in `prompt-builder`.

This file shallowly embeds the core of the `dialectiq` selector
(`src/dialectiq/core/matching.ts`, `core/selection.ts`, `core/context.ts`,
`terminal/index.ts`, `ui/renderer.ts`) into Lean and proves or refutes the
frozen claims about it.  Strings are Lean `String`s; the character-level
algorithms work on `List Char`.  JavaScript's `toLowerCase` is modelled
character-wise by `Char.toLower` (the sources only deal with ASCII names), and
array membership tests (`includes` on strings or primitives) are modelled with
decidable equality.  Callbacks that only touch the screen (`render`) are
dropped; the callback `updateState`, which mutates the host state map, is
modelled by returning a flag saying whether it was invoked, and the session
driver threads the host state explicitly.
-/

namespace Dialectiq

/-- One lower-cased character list, the model of `s.toLowerCase()` followed by
`split('')` in `findMatches` / `defaultDisplay` (`core/matching.ts`). -/
def lowerChars (s : String) : List Char :=
  s.toList.map Char.toLower

/-- The inner loop of `findMatches` (`core/matching.ts` lines 18-27): for each
input character, `nameIndex = name.indexOf(char, nameIndex)`; fail on `-1`,
else continue just after the found occurrence.  Finding the first occurrence
of `c` at or after the current position and resuming after it is exactly this
structural scan of the remaining name suffix. -/
def subseqGreedy : List Char → List Char → Bool
  | [], _ => true
  | _ :: _, [] => false
  | c :: cs, n :: ns => if n = c then subseqGreedy cs ns else subseqGreedy (c :: cs) ns

/-- `findMatches` (`core/matching.ts` lines 4-29): empty input returns the
options unchanged; otherwise filter the options whose lower-cased name
contains the lower-cased input as a subsequence. -/
def findMatches {T : Type} (input : String) (options : List T) (getName : T → String) :
    List T :=
  if input = "" then options
  else options.filter (fun opt => subseqGreedy (lowerChars input) (lowerChars (getName opt)))

/-- `canAddSelection` (`core/matching.ts` lines 31-39):
`maxSelections === null || selectedOptions.length < maxSelections`. -/
def canAddSelection {T : Type} (selectedOptions : List T) (maxSelections : Option Nat) :
    Bool :=
  match maxSelections with
  | none => true
  | some m => selectedOptions.length < m

/-- A registered transformation (`types/index.ts`): `apply` may fail (a thrown
error / rejected promise is modelled by `Except.error` carrying the message). -/
structure Transformation (T V : Type) where
  name : String
  description : String
  apply : List T → (T → String) → Except String V

/-- The `inputMode` field of the selection context (`types/index.ts` plus the
`command` mode used by `core/context.ts`). -/
inductive InputMode where
  | input
  | command
  | transformation
  | pipe
  | paste
deriving DecidableEq, Repr

/-- `SelectionContext` (`types/index.ts`), restricted to the fields the
embedded operations read or write (`activePipes`/`availablePipes` are not
touched by any embedded function and are omitted). -/
structure SelectionContext (T V : Type) where
  currentInput : String
  selectedOptions : List T
  availableOptions : List T
  errorMessage : String
  selectionTypes : List String
  currentSelectionTypeIndex : Nat
  activeTransformations : List String
  availableTransformations : List (Transformation T V)
  inputMode : InputMode

/-- `handleSingleSelection` (`core/selection.ts` lines 5-43).  The returned
flag records whether `updateState()` was invoked (the success branch). -/
def handleSingleSelection {T V : Type} (getName : T → String) (maxSelections : Option Nat)
    (context : SelectionContext T V) : SelectionContext T V × Bool :=
  if context.currentInput = "" then
    ({ context with errorMessage := "Enter a search term to select an option." }, false)
  else
    match findMatches context.currentInput context.availableOptions getName with
    | [] => ({ context with errorMessage := "No options match your search." }, false)
    | m :: _ =>
      if canAddSelection context.selectedOptions maxSelections then
        ({ context with
            selectedOptions := context.selectedOptions ++ [m]
            currentInput := ""
            errorMessage := "" }, true)
      else
        ({ context with errorMessage := "Selection limit reached." }, false)

/-- The decimal value of a digit string, the model of `parseInt(ds, 10)` on
the digit groups captured by `/^(\d+)-(\d+)$/`. -/
def digitsToNat (ds : List Char) : Nat :=
  ds.foldl (fun acc c => acc * 10 + (c.toNat - 48)) 0

/-- `currentInput.match(/^(\d+)-(\d+)$/)` (`core/selection.ts` line 57): one
or more digits, a dash, one or more digits, end of string. -/
def parseRange (s : String) : Option (Nat × Nat) :=
  let cs := s.toList
  let d1 := cs.takeWhile Char.isDigit
  let r1 := cs.dropWhile Char.isDigit
  match d1, r1 with
  | [], _ => none
  | _ :: _, '-' :: r2 =>
    let d2 := r2.takeWhile Char.isDigit
    if d2 = [] ∨ r2.dropWhile Char.isDigit ≠ [] then none
    else some (digitsToNat d1, digitsToNat d2)
  | _ :: _, _ => none

/-- The `for (let i = start - 1; i < end; i++)` loop of `handleRangeSelection`
(`core/selection.ts` lines 68-75), over the explicit index list. -/
def rangeLoop {T : Type} [DecidableEq T] (avail : List T) (maxSelections : Option Nat) :
    List Nat → List T → List T
  | [], sel => sel
  | i :: is, sel =>
    match avail[i]? with
    | none => rangeLoop avail maxSelections is sel
    | some opt =>
      if canAddSelection sel maxSelections ∧ opt ∉ sel then
        rangeLoop avail maxSelections is (sel ++ [opt])
      else
        rangeLoop avail maxSelections is sel

/-- `handleRangeSelection` (`core/selection.ts` lines 45-83). -/
def handleRangeSelection {T V : Type} [DecidableEq T] (maxSelections : Option Nat)
    (context : SelectionContext T V) : SelectionContext T V × Bool :=
  match parseRange context.currentInput with
  | none => ({ context with errorMessage := "Enter range (e.g., 3-5)" }, false)
  | some (s, e) =>
    if s ≤ e ∧ 1 ≤ s ∧ e ≤ context.availableOptions.length then
      ({ context with
          selectedOptions :=
            rangeLoop context.availableOptions maxSelections
              (List.range' (s - 1) (e + 1 - s)) context.selectedOptions
          currentInput := ""
          errorMessage := "" }, true)
    else
      ({ context with
          errorMessage :=
            "Invalid range: must be between 1 and " ++
              toString context.availableOptions.length }, false)

/-- `selectAllOptions` (`core/selection.ts` lines 85-104): push every
available option not already selected; note there is no `canAddSelection`
guard in this executor. -/
def selectAllOptions {T V : Type} [DecidableEq T] (context : SelectionContext T V) :
    SelectionContext T V × Bool :=
  ({ context with
      selectedOptions :=
        context.availableOptions.foldl
          (fun sel opt => if opt ∈ sel then sel else sel ++ [opt])
          context.selectedOptions
      currentInput := ""
      errorMessage := "" }, true)

/-- `unselectAllOptions` (`core/selection.ts` lines 106-120). -/
def unselectAllOptions {T V : Type} (context : SelectionContext T V) :
    SelectionContext T V × Bool :=
  ({ context with selectedOptions := [], currentInput := "", errorMessage := "" }, true)

/-- `handleSelectionByType` (`core/selection.ts` lines 122-172).  Output:
the new context, whether `updateState()` ran, and whether `cleanup()` was
invoked (either by the `done` command or by the trailing
`maxSelections !== null && selected.length >= maxSelections` check). -/
def handleSelectionByType {T V : Type} [DecidableEq T] (type : String)
    (getName : T → String) (maxSelections : Option Nat) (context : SelectionContext T V) :
    SelectionContext T V × Bool × Bool :=
  let step : SelectionContext T V × Bool × Bool :=
    if type = "done" then (context, false, true)
    else if type = "single" then
      let r := handleSingleSelection getName maxSelections context
      (r.1, r.2, false)
    else if type = "range" then
      let r := handleRangeSelection maxSelections context
      (r.1, r.2, false)
    else if type = "selectAll" then
      let r := selectAllOptions context
      (r.1, r.2, false)
    else if type = "unselectAll" then
      let r := unselectAllOptions context
      (r.1, r.2, false)
    else (context, false, false)
  let capReached : Bool :=
    match maxSelections with
    | none => false
    | some m => m ≤ step.1.selectedOptions.length
  (step.1, step.2.1, step.2.2 || capReached)

/-- The host application's state map (`state : Record<string, any>`),
restricted to the keys the embedded core reads or writes: `selections`,
`Selected` and `transformations`.  Caller-owned keys are never touched by the
embedded operations and are omitted. -/
structure HostState (T V : Type) where
  selections : Option (List T)
  selectedSummary : String
  transformations : Option (List (String × V))

/-- `updateSelectionState` (`core/context.ts` lines 37-54): rewrite the
`Selected` summary and the `selections` key from the current selection. -/
def updateSelectionState {T V : Type} (getName : T → String) (selectedOptions : List T)
    (state : HostState T V) : HostState T V :=
  let selectedNames := selectedOptions.map getName
  let summary :=
    if selectedNames.length = 0 then "None"
    else if selectedNames.length ≤ 10 then String.intercalate "\n" selectedNames
    else
      String.intercalate "\n" (selectedNames.take 10) ++ "\n... and " ++
        toString (selectedNames.length - 10) ++ " more"
  { state with selectedSummary := summary, selections := some selectedOptions }

/-- `[...new Set(l)]`: deduplicate keeping the first occurrence of each
element, in insertion order. -/
def uniqueFirst {α : Type} [DecidableEq α] (l : List α) : List α :=
  l.foldl (fun acc a => if a ∈ acc then acc else acc ++ [a]) []

/-- `initializeContext` (`core/context.ts` lines 5-35).  `stateSelections` is
the `selections` entry of the incoming state map (`state.selections ?
[...state.selections] : []`; an absent key is `none`, and an empty array is
truthy in JavaScript so it copies to an empty list either way). -/
def initializeContext {T V : Type} (options : List T) (stateSelections : Option (List T))
    (transformations : List (Transformation T V)) (commands : Option (List String))
    (customCommands : List String) : SelectionContext T V :=
  let defaultCommands := ["single", "selectAll", "unselectAll", "done"]
  let commandList :=
    match commands with
    | some cs => uniqueFirst (cs ++ ["done"])
    | none => uniqueFirst (defaultCommands ++ customCommands ++ ["done"])
  { currentInput := ""
    selectedOptions :=
      match stateSelections with
      | some l => l
      | none => []
    availableOptions := options
    errorMessage := ""
    selectionTypes := commandList
    currentSelectionTypeIndex := 0
    activeTransformations := []
    availableTransformations := transformations
    inputMode := .input }

/-- `switchInputMode` (`core/context.ts` lines 56-74): Tab's mode cycle;
always clears `currentInput` and `errorMessage`. -/
def switchInputMode {T V : Type} (context : SelectionContext T V) : SelectionContext T V :=
  let nextMode : InputMode :=
    if context.inputMode = .input then .command
    else if context.inputMode = .command then
      (if context.availableTransformations.length > 0 then .transformation else .input)
    else .input
  { context with inputMode := nextMode, currentInput := "", errorMessage := "" }

/-- `appendInput` (`core/context.ts` lines 76-88). -/
def appendInput {T V : Type} (char : Char) (context : SelectionContext T V) :
    SelectionContext T V :=
  { context with currentInput := context.currentInput.push char, errorMessage := "" }

/-- `currentInput.slice(0, -1)`. -/
def strDropLast (s : String) : String :=
  String.mk s.toList.dropLast

/-- `backspaceInput` (`core/context.ts` lines 90-100). -/
def backspaceInput {T V : Type} (context : SelectionContext T V) : SelectionContext T V :=
  { context with currentInput := strDropLast context.currentInput, errorMessage := "" }

/-- `toggleTransformation` (`core/context.ts` lines 102-129):
`activeTransformations.indexOf(name)` then push or `splice(index, 1)` (remove
the first occurrence). -/
def toggleTransformation {T V : Type} (transformationIndex : Nat)
    (context : SelectionContext T V) : SelectionContext T V :=
  match context.availableTransformations[transformationIndex]? with
  | none =>
    { context with
        errorMessage := "Invalid transformation index: " ++ toString (transformationIndex + 1) }
  | some t =>
    if t.name ∈ context.activeTransformations then
      { context with
          activeTransformations := context.activeTransformations.erase t.name
          errorMessage := "" }
    else
      { context with
          activeTransformations := context.activeTransformations ++ [t.name]
          errorMessage := "" }

/-- The session driver's mutable cell: the selection context, the host state
map, and the session promise.  `resolved = none` while the session runs;
`some (.ok st)` once `resolve(st)` fired; `some (.error e)` models a cleanup
that threw (an unhandled rejection - `resolve` is never reached, see
`cleanupTerminal`). -/
structure Driver (T V : Type) where
  context : SelectionContext T V
  state : HostState T V
  resolved : Option (Except String (HostState T V))

/-- The transformation loop of `cleanupTerminal` (`terminal/index.ts` lines
44-54): for each active name in order, look the transformation up and `await`
its `apply`.  There is no try/catch around the `await`: a rejection aborts
the loop and propagates. -/
def processTransformations {T V : Type} (avail : List (Transformation T V))
    (getName : T → String) (selected : List T) :
    List String → Except String (List (String × V))
  | [] => .ok []
  | n :: ns =>
    match avail.find? (fun t => t.name = n) with
    | none => processTransformations avail getName selected ns
    | some t =>
      match t.apply selected getName with
      | .error e => .error e
      | .ok v =>
        match processTransformations avail getName selected ns with
        | .error e => .error e
        | .ok rest => .ok ((n, v) :: rest)

/-- `cleanupTerminal` (`terminal/index.ts` lines 21-61), minus the escape
sequences: run the transformation loop, store the result map under
`state.transformations`, then `resolve(state)`.  A second call after the
promise already resolved cannot change its value (first `resolve` wins).  If
a transformation rejects, the assignment and the `resolve` call are never
reached; the session promise stays pending, recorded as `.error`. -/
def cleanupTerminal {T V : Type} (getName : T → String) (d : Driver T V) : Driver T V :=
  match d.resolved with
  | some _ => d
  | none =>
    match
      processTransformations d.context.availableTransformations getName
        d.context.selectedOptions d.context.activeTransformations
    with
    | .error e => { d with resolved := some (.error e) }
    | .ok res =>
      let st := { d.state with transformations := some res }
      { d with state := st, resolved := some (.ok st) }

/-- Selection-executor dispatch at the driver level: runs
`handleSelectionByType` on the context, replays its `updateState()` call on
the host state, and performs `cleanup()` when the executor requested it. -/
def runSelectionByType {T V : Type} [DecidableEq T] (type : String) (getName : T → String)
    (maxSelections : Option Nat) (d : Driver T V) : Driver T V :=
  let r := handleSelectionByType type getName maxSelections d.context
  let d1 : Driver T V := { d with context := r.1 }
  let d2 : Driver T V :=
    if r.2.1 then { d1 with state := updateSelectionState getName r.1.selectedOptions d1.state }
    else d1
  if r.2.2 then cleanupTerminal getName d2 else d2

/-- `handleSelection` (`core/context.ts` lines 131-163): read the active
command, short-circuit `done` to `cleanup()`, else dispatch.  (The source's
`context.currentInput = input` re-assigns the value just read from the
context and is a no-op.) -/
def handleSelection {T V : Type} [DecidableEq T] (getName : T → String)
    (maxSelections : Option Nat) (d : Driver T V) : Driver T V :=
  let type := d.context.selectionTypes.getD d.context.currentSelectionTypeIndex ""
  if type = "done" then cleanupTerminal getName d
  else runSelectionByType type getName maxSelections d

/-- The display label of a command (`core/context.ts` lines 200-201). -/
def commandDisplayText (type : String) : String :=
  if type = "done" then "done" else if type = "single" then "select first" else type

/-- `lowerType.includes(lowerInput)`: substring test. -/
def strIncludes (hay needle : List Char) : Bool :=
  hay.tails.any (fun t => needle.isPrefixOf t)

/-- The longest common leading-character run of two strings (`core/context.ts`
lines 203-214: count equal characters from the front, stop at the first
mismatch). -/
def overlapLen : List Char → List Char → Nat
  | a :: as, b :: bs => if a = b then overlapLen as bs + 1 else 0
  | _, _ => 0

/-- The `selectionTypes.forEach` fold of `executeCommand`'s command branch
(`core/context.ts` lines 196-219): keep the index with the strictly largest
leading overlap among labels containing the input; `none` models the initial
`bestMatchIndex = -1` (any overlap beats `maxOverlap = -1`). -/
def bestCommandMatch (selectionTypes : List String) (lowerInput : List Char) : Option Nat :=
  (selectionTypes.enum.foldl
    (fun acc p =>
      let lowerType := lowerChars (commandDisplayText p.2)
      let ov := overlapLen lowerType lowerInput
      let better :=
        match acc with
        | none => true
        | some q => q.2 < ov
      if better && strIncludes lowerType lowerInput then some (p.1, ov) else acc)
    none).map Prod.fst

/-- `executeCommand` (`core/context.ts` lines 165-271).  The `input` branch
dispatches the active command then clears `currentInput`; the `command`
branch fuzzy-matches command labels (switching back to `input` mode on a
match, or falling through to executing the active command on empty input);
the `transformation` branch substring-matches transformation names and
toggles the first hit.  The remaining modes have no branch and do nothing. -/
def executeCommand {T V : Type} [DecidableEq T] (getName : T → String)
    (maxSelections : Option Nat) (d : Driver T V) : Driver T V :=
  let context := d.context
  match context.inputMode with
  | .input =>
    let d1 := handleSelection getName maxSelections d
    { d1 with context := { d1.context with currentInput := "" } }
  | .command =>
    if context.currentInput ≠ "" then
      match bestCommandMatch context.selectionTypes (lowerChars context.currentInput) with
      | some idx =>
        { d with
            context :=
              { context with
                  currentSelectionTypeIndex := idx
                  currentInput := ""
                  inputMode := .input } }
      | none =>
        { d with
            context :=
              { context with
                  errorMessage :=
                    "No matching command found. Press Tab to switch to input mode." } }
    else
      let type := context.selectionTypes.getD context.currentSelectionTypeIndex ""
      let d1 : Driver T V :=
        { d with context := { context with currentInput := "", inputMode := .input } }
      if type = "done" then cleanupTerminal getName d1
      else runSelectionByType type getName maxSelections d1
  | .transformation =>
    if context.currentInput ≠ "" then
      match
        context.availableTransformations.findIdx?
          (fun t => strIncludes (lowerChars t.name) (lowerChars context.currentInput))
      with
      | some idx =>
        let ctx1 := toggleTransformation idx context
        { d with context := { ctx1 with inputMode := .input, currentInput := "" } }
      | none =>
        { d with context := { context with errorMessage := "No matching transformation found" } }
    else
      { d with context := { context with errorMessage := "Enter a transformation name to select" } }
  | _ => d

/-- The per-byte dispatch loop of `handleInput` (`terminal/index.ts` lines
94-156), over the decoded character list.  `\x03` fires `cleanup()`, `\x04`
jumps to `done` and executes, Tab switches mode, Enter executes, `\x7f`
backspaces, `ESC [ D` / `ESC [ C` move the active command index (clamped,
skipping the two lookahead bytes), printable ASCII appends to the filter,
anything else is ignored.  The source checks
`inputBuffer.slice(i, i + 3) === '\x1b[D'` (resp. `'\x1b[C'`) after the
single-byte branches; those can only succeed when the current byte is ESC,
which matches none of the earlier branches, so they are hoisted into the
leading patterns here (a lone ESC then fails the printable test, 0x1b < 0x20,
and is ignored). -/
def handleInputLoop {T V : Type} [DecidableEq T] (getName : T → String)
    (maxSelections : Option Nat) : List Char → Driver T V → Driver T V
  | [], d => d
  | '\x1b' :: '[' :: 'D' :: rest, d =>
    handleInputLoop getName maxSelections rest
      { d with
          context :=
            { d.context with
                currentSelectionTypeIndex := d.context.currentSelectionTypeIndex - 1 } }
  | '\x1b' :: '[' :: 'C' :: rest, d =>
    handleInputLoop getName maxSelections rest
      { d with
          context :=
            { d.context with
                currentSelectionTypeIndex :=
                  min (d.context.selectionTypes.length - 1)
                    (d.context.currentSelectionTypeIndex + 1) } }
  | c :: rest, d =>
    if c = Char.ofNat 3 then
      handleInputLoop getName maxSelections rest (cleanupTerminal getName d)
    else if c = Char.ofNat 4 then
      match d.context.selectionTypes.findIdx? (fun t => t = "done") with
      | some doneIndex =>
        let d1 : Driver T V :=
          { d with
              context :=
                { d.context with currentSelectionTypeIndex := doneIndex, currentInput := "" } }
        handleInputLoop getName maxSelections rest (executeCommand getName maxSelections d1)
      | none =>
        handleInputLoop getName maxSelections rest
          { d with context := { d.context with errorMessage := "Done command not available" } }
    else if c = '\t' then
      handleInputLoop getName maxSelections rest
        { d with context := switchInputMode d.context }
    else if c = '\r' then
      handleInputLoop getName maxSelections rest (executeCommand getName maxSelections d)
    else if c = Char.ofNat 127 then
      handleInputLoop getName maxSelections rest
        { d with context := backspaceInput d.context }
    else if ' ' ≤ c ∧ c ≤ '~' then
      handleInputLoop getName maxSelections rest
        { d with context := appendInput c d.context }
    else
      handleInputLoop getName maxSelections rest d

/-- `handleInput` (`terminal/index.ts` lines 77-164): the dispatch loop
followed by the trailing auto-terminate check
(`maxSelections !== null && selected.length >= maxSelections`). -/
def handleInput {T V : Type} [DecidableEq T] (getName : T → String)
    (maxSelections : Option Nat) (data : String) (d : Driver T V) : Driver T V :=
  let d1 := handleInputLoop getName maxSelections data.toList d
  match maxSelections with
  | some m =>
    if m ≤ d1.context.selectedOptions.length then cleanupTerminal getName d1 else d1
  | none => d1

/-- The grouping key of `groupOptionsByDirectory` (`core/matching.ts` lines
89-96): `name.includes(path.sep) ? name.split(path.sep)[0] : '.'`, with the
POSIX separator `/`. -/
def topLevelDir (name : String) : String :=
  if '/' ∈ name.toList then String.mk (name.toList.takeWhile (fun c => c ≠ '/'))
  else "."

/-- `.sort((a, b) => getName(a).localeCompare(getName(b)))`, modelled as a
stable merge sort under code-point comparison of names. -/
def sortByName {T : Type} (getName : T → String) (l : List T) : List T :=
  l.mergeSort (fun a b => getName a ≤ getName b)

/-- `Object.keys(optionsByTopLevelDir).sort()` (`core/matching.ts` line 98):
the distinct top-level directories, sorted. -/
def sortStrings (l : List String) : List String :=
  l.mergeSort (fun a b => a ≤ b)

/-- The group of a top-level directory: the options pushed under that key, in
their original order (`core/matching.ts` lines 89-96). -/
def dirGroup {T : Type} (getName : T → String) (options : List T) (d : String) : List T :=
  options.filter (fun o => topLevelDir (getName o) = d)

/-- The sorted key list of the per-directory buckets. -/
def topLevelDirs {T : Type} (getName : T → String) (options : List T) : List String :=
  sortStrings (uniqueFirst (options.map (fun o => topLevelDir (getName o))))

/-- The `while (remainingSlots > 0 && dirIndex < topLevelDirs.length)` loop of
`groupOptionsByDirectory` (`core/matching.ts` lines 130-137): scan the
directories round-robin (`dirIndex = (dirIndex + 1) % n`), moving one slot
from `remainingSlots` to any directory that still has more files than slots.
In the source the loop runs until `remainingSlots` hits zero (some directory
always has spare files while slots remain, because the total file count
exceeds `maxDisplay`); the embedding bounds the scan with explicit fuel large
enough for that exit. -/
def distribLoop (counts : List Nat) : Nat → List Nat → Nat → Nat → List Nat
  | 0, slots, _, _ => slots
  | fuel + 1, slots, remaining, dirIndex =>
    if remaining = 0 then slots
    else if counts.getD dirIndex 0 > slots.getD dirIndex 0 then
      distribLoop counts fuel (slots.set dirIndex (slots.getD dirIndex 0 + 1))
        (remaining - 1) ((dirIndex + 1) % counts.length)
    else
      distribLoop counts fuel slots remaining ((dirIndex + 1) % counts.length)

/-- The `while (slotsToFill > 0 && dirIndex < topLevelDirs.length)` fill loop
(`core/matching.ts` lines 148-168): walk the directories once, appending up to
`slotsToFill` extra already-sorted options beyond each directory's allotted
slots.  Returns the appended extras in order. -/
def fillLoop {T : Type} (getName : T → String) (options : List T) :
    List (String × Nat) → Nat → List T
  | [], _ => []
  | (d, s) :: rest, slotsToFill =>
    if slotsToFill = 0 then []
    else
      let g := sortByName getName (dirGroup getName options d)
      let remainingFiles := g.length - s
      if remainingFiles = 0 then fillLoop getName options rest slotsToFill
      else
        let toAdd := min remainingFiles slotsToFill
        (g.drop s).take toAdd ++ fillLoop getName options rest (slotsToFill - toAdd)

/-- The `fileCount` table of `groupOptionsByDirectory` (`core/matching.ts`
line 119), aligned with the sorted directory list. -/
def groupCounts {T : Type} (getName : T → String) (options : List T) : List Nat :=
  (topLevelDirs getName options).map (fun d => (dirGroup getName options d).length)

/-- The `slotsByDir` table after the initial allocation and the round-robin
redistribution (`core/matching.ts` lines 113-137): start from
`min(baseSlots, fileCount)` per directory and hand out the remaining slots.
-/
def groupSlots {T : Type} (getName : T → String) (options : List T) (maxDisplay : Nat) :
    List Nat :=
  let dirs := topLevelDirs getName options
  let n := dirs.length
  let baseSlots := maxDisplay / n
  let slots0 := dirs.map (fun d => min baseSlots (dirGroup getName options d).length)
  distribLoop (groupCounts getName options) (maxDisplay * n + n + 1) slots0
    (maxDisplay - slots0.sum) 0

/-- The `displayOptions` built from the allotted slots (`core/matching.ts`
lines 140-146): per directory in sorted order, the sorted group truncated to
its slots. -/
def groupChunks {T : Type} (getName : T → String) (options : List T) (maxDisplay : Nat) :
    List T :=
  (((topLevelDirs getName options).zip (groupSlots getName options maxDisplay)).map
    (fun p => (sortByName getName (dirGroup getName options p.1)).take p.2)).flatten

/-- `groupOptionsByDirectory` (`core/matching.ts` lines 78-175). -/
def groupOptionsByDirectory {T : Type} (getName : T → String) (maxDisplay : Nat)
    (options : List T) : List T :=
  let dirs := topLevelDirs getName options
  if options.length ≤ maxDisplay then
    (dirs.map (fun d => sortByName getName (dirGroup getName options d))).flatten
  else if dirs.length = 0 then []
  else
    let chunks := groupChunks getName options maxDisplay
    let extras :=
      fillLoop getName options (dirs.zip (groupSlots getName options maxDisplay))
        (maxDisplay - chunks.length)
    (chunks ++ extras).take maxDisplay

/-- The `totalOptionsToDisplay` list of `prepareDisplayOptions`
(`ui/renderer.ts` lines 118-129): the selected options followed by the
matching unselected options. -/
def totalOptionsToDisplay {T V : Type} [DecidableEq T] (getName : T → String)
    (context : SelectionContext T V) : List T :=
  let matchingOptions :=
    if context.currentInput ≠ "" then
      findMatches context.currentInput context.availableOptions getName
    else context.availableOptions
  context.selectedOptions ++
    matchingOptions.filter (fun opt => opt ∉ context.selectedOptions)

/-- `prepareDisplayOptions` (`ui/renderer.ts` lines 107-139): the combined
display list, grouped by directory and limited to the frame's `maxDisplay`
budget. -/
def prepareDisplayOptions {T V : Type} [DecidableEq T] (getName : T → String)
    (maxDisplay : Nat) (context : SelectionContext T V) : List T :=
  groupOptionsByDirectory getName maxDisplay (totalOptionsToDisplay getName context)

/-! ## Helper lemmas about the executors -/

/-- One step of `selectAllOptions`' accumulation. -/
def addIfAbsent {T : Type} [DecidableEq T] (sel : List T) (opt : T) : List T :=
  if opt ∈ sel then sel else sel ++ [opt]

theorem selectAllOptions_selected {T V : Type} [DecidableEq T]
    (context : SelectionContext T V) :
    (selectAllOptions context).1.selectedOptions =
      context.availableOptions.foldl addIfAbsent context.selectedOptions := by
  rfl

theorem mem_addIfAbsent_of_mem {T : Type} [DecidableEq T] {o : T} (sel : List T) (a : T)
    (h : o ∈ sel) : o ∈ addIfAbsent sel a := by
  by_cases hmem : a ∈ sel
  · simpa [addIfAbsent, hmem] using h
  · simp only [addIfAbsent, if_neg hmem]
    exact List.mem_append_left _ h

theorem foldl_addIfAbsent_mem_of_mem {T : Type} [DecidableEq T] (o : T) :
    ∀ (l sel : List T), o ∈ sel → o ∈ l.foldl addIfAbsent sel := by
  intro l
  induction l with
  | nil => intro sel h; simpa using h
  | cons a l ih =>
    intro sel h
    simpa using ih _ (mem_addIfAbsent_of_mem sel a h)

theorem foldl_addIfAbsent_mem {T : Type} [DecidableEq T] (o : T) :
    ∀ (l sel : List T), o ∈ l → o ∈ l.foldl addIfAbsent sel := by
  intro l
  induction l with
  | nil => intro sel h; simp at h
  | cons a l ih =>
    intro sel h
    rcases List.mem_cons.mp h with h | h
    · subst h
      have hbase : o ∈ addIfAbsent sel o := by
        by_cases hmem : o ∈ sel
        · simp [addIfAbsent, hmem]
        · simp [addIfAbsent, hmem]
      simpa using foldl_addIfAbsent_mem_of_mem o l (addIfAbsent sel o) hbase
    · exact ih _ h

theorem foldl_addIfAbsent_nodup {T : Type} [DecidableEq T] :
    ∀ (l sel : List T), sel.Nodup → (l.foldl addIfAbsent sel).Nodup := by
  intro l
  induction l with
  | nil => intro sel h; simpa using h
  | cons a l ih =>
    intro sel h
    have hstep : (addIfAbsent sel a).Nodup := by
      by_cases hmem : a ∈ sel
      · simpa [addIfAbsent, hmem] using h
      · simp only [addIfAbsent, if_neg hmem, ← List.concat_eq_append]
        exact h.concat hmem
    simpa using ih _ hstep

theorem rangeLoop_cons {T : Type} [DecidableEq T] (avail : List T)
    (maxSelections : Option Nat) (i : Nat) (is : List Nat) (sel : List T) :
    rangeLoop avail maxSelections (i :: is) sel =
      match avail[i]? with
      | none => rangeLoop avail maxSelections is sel
      | some opt =>
        if canAddSelection sel maxSelections ∧ opt ∉ sel then
          rangeLoop avail maxSelections is (sel ++ [opt])
        else rangeLoop avail maxSelections is sel := by
  rfl

theorem rangeLoop_mem_of_mem {T : Type} [DecidableEq T] (avail : List T)
    (maxSelections : Option Nat) (o : T) :
    ∀ (is : List Nat) (sel : List T), o ∈ sel → o ∈ rangeLoop avail maxSelections is sel := by
  intro is
  induction is with
  | nil => intro sel h; simpa [rangeLoop] using h
  | cons i is ih =>
    intro sel h
    rw [rangeLoop_cons]
    cases hav : avail[i]? with
    | none => exact ih _ h
    | some opt =>
      simp only
      split
      · exact ih _ (List.mem_append_left _ h)
      · exact ih _ h

theorem rangeLoop_length_mono {T : Type} [DecidableEq T] (avail : List T)
    (maxSelections : Option Nat) :
    ∀ (is : List Nat) (sel : List T),
      sel.length ≤ (rangeLoop avail maxSelections is sel).length := by
  intro is
  induction is with
  | nil => intro sel; simp [rangeLoop]
  | cons i is ih =>
    intro sel
    rw [rangeLoop_cons]
    cases hav : avail[i]? with
    | none => exact ih _
    | some opt =>
      simp only
      split
      · calc sel.length ≤ (sel ++ [opt]).length := by simp
          _ ≤ _ := ih _
      · exact ih _

theorem rangeLoop_append {T : Type} [DecidableEq T] (avail : List T)
    (maxSelections : Option Nat) :
    ∀ (is : List Nat) (sel : List T),
      ∃ tail, rangeLoop avail maxSelections is sel = sel ++ tail := by
  intro is
  induction is with
  | nil => intro sel; exact ⟨[], by simp [rangeLoop]⟩
  | cons i is ih =>
    intro sel
    rw [rangeLoop_cons]
    cases hav : avail[i]? with
    | none => exact ih _
    | some opt =>
      simp only
      split
      · obtain ⟨tail, htail⟩ := ih (sel ++ [opt])
        exact ⟨[opt] ++ tail, by simp [htail]⟩
      · exact ih _

theorem rangeLoop_cap {T : Type} [DecidableEq T] (avail : List T) (m : Nat) :
    ∀ (is : List Nat) (sel : List T), sel.length ≤ m →
      (rangeLoop avail (some m) is sel).length ≤ m := by
  intro is
  induction is with
  | nil => intro sel h; simpa [rangeLoop] using h
  | cons i is ih =>
    intro sel h
    rw [rangeLoop_cons]
    cases hav : avail[i]? with
    | none => exact ih _ h
    | some opt =>
      simp only
      split
      · next hcond =>
        apply ih
        have hlt : sel.length < m := by
          simpa [canAddSelection] using hcond.1
        simpa using hlt
      · exact ih _ h

theorem rangeLoop_nodup {T : Type} [DecidableEq T] (avail : List T)
    (maxSelections : Option Nat) :
    ∀ (is : List Nat) (sel : List T), sel.Nodup →
      (rangeLoop avail maxSelections is sel).Nodup := by
  intro is
  induction is with
  | nil => intro sel h; simpa [rangeLoop] using h
  | cons i is ih =>
    intro sel h
    rw [rangeLoop_cons]
    cases hav : avail[i]? with
    | none => exact ih _ h
    | some opt =>
      simp only
      split
      · next hcond =>
        apply ih
        rw [← List.concat_eq_append]
        exact h.concat hcond.2
      · exact ih _ h

/-- After a pass of the range loop, every in-range item is either selected or
the cap was exhausted; this is what makes a second pass a no-op. -/
theorem rangeLoop_saturated {T : Type} [DecidableEq T] (avail : List T)
    (maxSelections : Option Nat) :
    ∀ (is : List Nat) (sel : List T) (i : Nat), i ∈ is →
      ∀ opt, avail[i]? = some opt →
        opt ∈ rangeLoop avail maxSelections is sel ∨
          canAddSelection (rangeLoop avail maxSelections is sel) maxSelections = false := by
  intro is
  induction is with
  | nil => intro sel i hi; simp at hi
  | cons j is ih =>
    intro sel i hi opt hopt
    rcases List.mem_cons.mp hi with hij | hi'
    · subst hij
      rw [rangeLoop_cons, hopt]
      simp only
      split
      · left
        exact rangeLoop_mem_of_mem _ _ _ _ _
          (List.mem_append_right _ (List.mem_singleton.mpr rfl))
      · next hcond =>
        rw [not_and_or] at hcond
        rcases hcond with hcap | hmem
        · right
          cases maxSelections with
          | none => simp [canAddSelection] at hcap
          | some m =>
            have hlen : m ≤ sel.length := by
              simp only [canAddSelection, decide_eq_true_eq] at hcap
              omega
            have hmono := rangeLoop_length_mono avail (some m) is sel
            simp only [canAddSelection, decide_eq_false_iff_not, Nat.not_lt]
            omega
        · left
          have : opt ∈ sel := not_not.mp hmem
          exact rangeLoop_mem_of_mem _ _ _ _ _ this
    · rw [rangeLoop_cons]
      cases havj : avail[j]? with
      | none => exact ih _ _ hi' _ hopt
      | some optj =>
        simp only
        split
        · exact ih _ _ hi' _ hopt
        · exact ih _ _ hi' _ hopt

/-- A pass of the range loop over indices that are all already saturated does
not change the selection. -/
theorem rangeLoop_noop {T : Type} [DecidableEq T] (avail : List T)
    (maxSelections : Option Nat) :
    ∀ (is : List Nat) (sel : List T),
      (∀ i ∈ is, ∀ opt, avail[i]? = some opt →
        opt ∈ sel ∨ canAddSelection sel maxSelections = false) →
      rangeLoop avail maxSelections is sel = sel := by
  intro is
  induction is with
  | nil => intro sel _; rfl
  | cons i is ih =>
    intro sel hsat
    rw [rangeLoop_cons]
    cases hav : avail[i]? with
    | none => exact ih _ (fun j hj => hsat j (List.mem_cons_of_mem _ hj))
    | some opt =>
      have hstep := hsat i (List.mem_cons_self _ _) opt hav
      simp only
      split
      · next hcond =>
        rcases hstep with hmem | hcap
        · exact absurd hmem hcond.2
        · rw [hcond.1] at hcap
          simp at hcap
      · exact ih _ (fun j hj => hsat j (List.mem_cons_of_mem _ hj))

theorem rangeLoop_idem {T : Type} [DecidableEq T] (avail : List T)
    (maxSelections : Option Nat) (is : List Nat) (sel : List T) :
    rangeLoop avail maxSelections is (rangeLoop avail maxSelections is sel) =
      rangeLoop avail maxSelections is sel := by
  apply rangeLoop_noop
  intro i hi opt hopt
  exact rangeLoop_saturated avail maxSelections is sel i hi opt hopt

/-! ## Concrete fixtures for counterexamples and witnesses -/

/-- A session context over string items with the full default command set and
no transformations, as built by `initializeContext` modulo the varying
fields. -/
def mkCtx (input : String) (sel avail : List String) : SelectionContext String Unit :=
  { currentInput := input
    selectedOptions := sel
    availableOptions := avail
    errorMessage := ""
    selectionTypes := ["single", "range", "selectAll", "unselectAll", "done"]
    currentSelectionTypeIndex := 0
    activeTransformations := []
    availableTransformations := []
    inputMode := .input }

/-! ## C1: the selection cap -/

/-- Claim C1 is false on the code: with `maxSelections = 1`, an empty
selection and two available items, executing the `selectAll` command leaves
`selected` with 2 items - `selectAllOptions` pushes every unselected
available item without consulting `canAddSelection`, so
`|selected| ≤ maxSelections` is violated. -/
theorem C1_counterexample :
    ¬ ((handleSelectionByType "selectAll" id (some 1)
          (mkCtx "" [] ["a", "b"])).1.selectedOptions.length ≤ 1) := by
  decide

/-- Claim C1, amended: with a non-null `maxSelections = m`, the `single` and
`range` executors preserve `|selected| ≤ m` (each push is guarded by
`canAddSelection`), but `selectAll` adds every available item not already
selected regardless of the cap, so `|selected|` can exceed `m`; and after any
non-`done` executor invocation `handleSelectionByType` invokes `cleanup()`
exactly when `|selected| ≥ m` (so the session terminates as soon as the cap
is reached or exceeded, not only at equality). -/
theorem C1_amended {T V : Type} [DecidableEq T] (getName : T → String) (m : Nat)
    (ctx : SelectionContext T V) (type : String) :
    (ctx.selectedOptions.length ≤ m →
      (handleSingleSelection getName (some m) ctx).1.selectedOptions.length ≤ m) ∧
    (ctx.selectedOptions.length ≤ m →
      (handleRangeSelection (some m) ctx).1.selectedOptions.length ≤ m) ∧
    (∀ o ∈ ctx.availableOptions, o ∈ (selectAllOptions ctx).1.selectedOptions) ∧
    (type ≠ "done" →
      (handleSelectionByType type getName (some m) ctx).2.2 =
        decide (m ≤ (handleSelectionByType type getName (some m) ctx).1.selectedOptions.length)) := by
  refine ⟨?_, ?_, ?_, ?_⟩
  · intro h
    unfold handleSingleSelection
    split
    · simpa using h
    · split
      · simpa using h
      · split
        · next hcan =>
          have : ctx.selectedOptions.length < m := by
            simpa [canAddSelection] using hcan
          simpa using this
        · simpa using h
  · intro h
    unfold handleRangeSelection
    split
    · simpa using h
    · split
      · simpa using rangeLoop_cap ctx.availableOptions m _ _ h
      · simpa using h
  · intro o ho
    rw [selectAllOptions_selected]
    exact foldl_addIfAbsent_mem o _ _ ho
  · intro h
    unfold handleSelectionByType
    simp only [if_neg h]
    repeat' split
    all_goals simp

/-- Witness for `C1_amended` at a concrete session. -/
theorem C1_amended_witness :
    (handleSingleSelection id (some 2) (mkCtx "a" [] ["a", "b"])).1.selectedOptions.length ≤ 2 ∧
    (handleRangeSelection (V := Unit) (some 2) (mkCtx "1-2" [] ["a", "b"])).1.selectedOptions.length ≤ 2 ∧
    ("a" ∈ (selectAllOptions (mkCtx "" [] ["a", "b"])).1.selectedOptions) ∧
    (handleSelectionByType "selectAll" id (some 2) (mkCtx "" [] ["a", "b"])).2.2 =
      decide (2 ≤ (handleSelectionByType "selectAll" id (some 2)
        (mkCtx "" [] ["a", "b"])).1.selectedOptions.length) :=
  ⟨(C1_amended id 2 (mkCtx "a" [] ["a", "b"]) "selectAll").1 (by decide),
   (C1_amended id 2 (mkCtx "1-2" [] ["a", "b"]) "selectAll").2.1 (by decide),
   (C1_amended id 2 (mkCtx "" [] ["a", "b"]) "selectAll").2.2.1 "a" (by decide),
   (C1_amended id 2 (mkCtx "" [] ["a", "b"]) "selectAll").2.2.2 (by decide)⟩

/-! ## C2: no duplicate selections -/

/-- Claim C2 is false on the code: with `"a"` already selected and still
available, executing `single` with filter `"a"` appends the first fuzzy match
again - `handleSingleSelection` pushes `matches[0]` with no membership
check, so `selected` becomes `["a", "a"]`. -/
theorem C2_counterexample :
    ¬ ((handleSingleSelection id none (mkCtx "a" ["a"] ["a"])).1.selectedOptions.Nodup) := by
  decide

/-- Claim C2, amended: the `range` and `selectAll` executors preserve the
no-duplicate invariant of `selected` (their pushes are guarded by membership
tests), but `single` appends the first fuzzy match unconditionally whenever a
match exists and the cap allows, so running `single` against an
already-selected item duplicates it. -/
theorem C2_amended {T V : Type} [DecidableEq T] (getName : T → String)
    (maxSelections : Option Nat) (ctx : SelectionContext T V) :
    (ctx.selectedOptions.Nodup →
      (handleRangeSelection maxSelections ctx).1.selectedOptions.Nodup) ∧
    (ctx.selectedOptions.Nodup →
      (selectAllOptions ctx).1.selectedOptions.Nodup) ∧
    (∀ m rest, ctx.currentInput ≠ "" →
      findMatches ctx.currentInput ctx.availableOptions getName = m :: rest →
      canAddSelection ctx.selectedOptions maxSelections = true →
      (handleSingleSelection getName maxSelections ctx).1.selectedOptions =
        ctx.selectedOptions ++ [m]) := by
  refine ⟨?_, ?_, ?_⟩
  · intro h
    unfold handleRangeSelection
    split
    · simpa using h
    · split
      · simpa using rangeLoop_nodup ctx.availableOptions maxSelections _ _ h
      · simpa using h
  · intro h
    rw [selectAllOptions_selected]
    exact foldl_addIfAbsent_nodup _ _ h
  · intro m rest hinput hmatches hcan
    unfold handleSingleSelection
    simp only [if_neg hinput, hmatches, hcan, if_pos]

/-- Witness for `C2_amended` at a concrete session: `range` and `selectAll`
keep `["a"]` duplicate-free, while `single` appends its first match. -/
theorem C2_amended_witness :
    (handleRangeSelection (V := Unit) none (mkCtx "1-2" ["a"] ["a", "b"])).1.selectedOptions.Nodup ∧
    (selectAllOptions (mkCtx "" ["a"] ["a", "b"])).1.selectedOptions.Nodup ∧
    (handleSingleSelection id none (mkCtx "b" ["a"] ["a", "b"])).1.selectedOptions = ["a"] ++ ["b"] :=
  ⟨(C2_amended id none (mkCtx "1-2" ["a"] ["a", "b"])).1 (by decide),
   (C2_amended id none (mkCtx "" ["a"] ["a", "b"])).2.1 (by decide),
   (C2_amended id none (mkCtx "b" ["a"] ["a", "b"])).2.2 "b" [] (by decide) (by decide) (by decide)⟩

/-! ## C4: range is not a toggle -/

/-- Claim C4 is false on the code: executing `range` twice over the bounds
`1-1` starting from an empty selection leaves `["a"]` selected, not the empty
pre-first-invocation set - `handleRangeSelection` only adds, it never
removes. -/
theorem C4_counterexample :
    ¬ ((handleRangeSelection (V := Unit) none
          { (handleRangeSelection (V := Unit) none (mkCtx "1-1" [] ["a"])).1 with
              currentInput := "1-1" }).1.selectedOptions =
        (mkCtx "1-1" [] ["a"]).selectedOptions) := by
  decide

/-- Claim C4, amended: for each 1-indexed position in the parsed range, the
`range` executor adds the item if it is absent and room remains, and never
removes anything (`selected` is always extended, never shrunk); consequently
executing `range` twice over the same bounds yields the same selection as
executing it once (idempotence), instead of restoring the
pre-first-invocation set. -/
theorem C4_amended {T V : Type} [DecidableEq T] (maxSelections : Option Nat)
    (ctx : SelectionContext T V) :
    (∃ tail, (handleRangeSelection maxSelections ctx).1.selectedOptions =
        ctx.selectedOptions ++ tail) ∧
    (handleRangeSelection maxSelections
        { (handleRangeSelection maxSelections ctx).1 with
            currentInput := ctx.currentInput }).1.selectedOptions =
      (handleRangeSelection maxSelections ctx).1.selectedOptions := by
  constructor
  · unfold handleRangeSelection
    split
    · exact ⟨[], by simp⟩
    · split
      · simpa using rangeLoop_append ctx.availableOptions maxSelections _ _
      · exact ⟨[], by simp⟩
  · unfold handleRangeSelection
    cases hp : parseRange ctx.currentInput with
    | none => simp [hp]
    | some se =>
      obtain ⟨s, e⟩ := se
      simp only [hp]
      by_cases hb : s ≤ e ∧ 1 ≤ s ∧ e ≤ ctx.availableOptions.length
      · simp only [if_pos hb]
        simpa [hp, hb] using
          rangeLoop_idem ctx.availableOptions maxSelections
            (List.range' (s - 1) (e + 1 - s)) ctx.selectedOptions
      · simp [hp, hb]

/-! ## Helper lemmas about grouping and the display budget -/

theorem mem_addIfAbsent_iff {T : Type} [DecidableEq T] (x : T) (acc : List T) (a : T) :
    x ∈ addIfAbsent acc a ↔ x ∈ acc ∨ x = a := by
  by_cases hmem : a ∈ acc
  · simp only [addIfAbsent, if_pos hmem]
    constructor
    · exact Or.inl
    · rintro (h | h)
      · exact h
      · exact h ▸ hmem
  · simp [addIfAbsent, if_neg hmem]

theorem foldl_addIfAbsent_subset {T : Type} [DecidableEq T] (x : T) :
    ∀ (l acc : List T), x ∈ l.foldl addIfAbsent acc → x ∈ acc ∨ x ∈ l := by
  intro l
  induction l with
  | nil => intro acc h; exact Or.inl (by simpa using h)
  | cons a l ih =>
    intro acc h
    rcases ih (addIfAbsent acc a) (by simpa using h) with h' | h'
    · rcases (mem_addIfAbsent_iff x acc a).mp h' with h'' | h''
      · exact Or.inl h''
      · exact Or.inr (by simp [h''])
    · exact Or.inr (List.mem_cons_of_mem _ h')

theorem uniqueFirst_eq_foldl {T : Type} [DecidableEq T] (l : List T) :
    uniqueFirst l = l.foldl addIfAbsent [] := rfl

theorem mem_uniqueFirst {T : Type} [DecidableEq T] (x : T) (l : List T) :
    x ∈ uniqueFirst l ↔ x ∈ l := by
  rw [uniqueFirst_eq_foldl]
  constructor
  · intro h
    rcases foldl_addIfAbsent_subset x l [] h with h' | h'
    · simp at h'
    · exact h'
  · intro h
    exact foldl_addIfAbsent_mem x l [] h

theorem uniqueFirst_nodup {T : Type} [DecidableEq T] (l : List T) :
    (uniqueFirst l).Nodup := by
  rw [uniqueFirst_eq_foldl]
  exact foldl_addIfAbsent_nodup l [] (by simp)

theorem mem_topLevelDirs {T : Type} (getName : T → String) (options : List T) (d : String) :
    d ∈ topLevelDirs getName options ↔ ∃ o ∈ options, topLevelDir (getName o) = d := by
  unfold topLevelDirs sortStrings
  rw [(List.mergeSort_perm _ _).mem_iff, mem_uniqueFirst]
  simp

theorem topLevelDirs_nodup {T : Type} (getName : T → String) (options : List T) :
    (topLevelDirs getName options).Nodup := by
  unfold topLevelDirs sortStrings
  exact (List.mergeSort_perm _ _).nodup_iff.mpr (uniqueFirst_nodup _)

/-- The per-directory groups partition the options: summing the group sizes
over a duplicate-free list of keys covering every option recovers the total
count. -/
theorem sum_length_filter_eq {α β : Type} [DecidableEq β] (key : α → β) :
    ∀ (dirs : List β) (options : List α), dirs.Nodup → (∀ o ∈ options, key o ∈ dirs) →
      (dirs.map (fun d => (options.filter (fun o => key o = d)).length)).sum =
        options.length := by
  intro dirs
  induction dirs with
  | nil =>
    intro options _ hcover
    cases options with
    | nil => simp
    | cons o os => exact absurd (hcover o (List.mem_cons_self _ _)) (by simp)
  | cons d ds ih =>
    intro options hnodup hcover
    have hd_notin : d ∉ ds := (List.nodup_cons.mp hnodup).1
    have hds_nodup : ds.Nodup := (List.nodup_cons.mp hnodup).2
    set options' := options.filter (fun o => key o ≠ d) with hopts'
    have hcover' : ∀ o ∈ options', key o ∈ ds := by
      intro o ho
      obtain ⟨homem, hne⟩ := List.mem_filter.mp ho
      rcases List.mem_cons.mp (hcover o homem) with h | h
      · simp [h] at hne
      · exact h
    have hmap : ∀ d' ∈ ds,
        (options.filter (fun o => key o = d')).length =
          (options'.filter (fun o => key o = d')).length := by
      intro d' hd'
      have hne : d' ≠ d := fun h => hd_notin (h ▸ hd')
      rw [hopts', List.filter_filter]
      congr 1
      apply List.filter_congr
      intro o _
      by_cases h : key o = d'
      · simp [h, hne]
      · simp [h]
    have hsum_tail :
        (ds.map (fun d' => (options.filter (fun o => key o = d')).length)).sum =
          options'.length := by
      rw [List.map_congr_left hmap]
      exact ih options' hds_nodup hcover'
    have hsplit :
        (options.filter (fun o => key o = d)).length + options'.length = options.length := by
      rw [hopts']
      rw [← List.countP_eq_length_filter, ← List.countP_eq_length_filter]
      rw [List.length_eq_countP_add_countP (fun o => key o = d) options]
      congr 1
      apply List.countP_congr
      intro o _
      simp
    simp only [List.map_cons, List.sum_cons, hsum_tail]
    exact hsplit

theorem sum_set_incr_le (l : List Nat) :
    ∀ (i : Nat), (l.set i (l.getD i 0 + 1)).sum ≤ l.sum + 1 := by
  induction l with
  | nil => intro i; simp
  | cons a l ih =>
    intro i
    cases i with
    | zero =>
      simp only [List.set, List.sum_cons, List.getD_cons_zero]
      omega
    | succ i =>
      simp only [List.set, List.sum_cons, List.getD_cons_succ]
      have := ih i
      omega

theorem getD_le_getD_set_incr (l : List Nat) :
    ∀ (i j : Nat), l.getD j 0 ≤ (l.set i (l.getD i 0 + 1)).getD j 0 := by
  induction l with
  | nil => intro i j; simp
  | cons a l ih =>
    intro i j
    cases i with
    | zero =>
      cases j with
      | zero => simp [List.getD]
      | succ j => simp [List.getD]
    | succ i =>
      cases j with
      | zero => simp [List.getD]
      | succ j =>
        simp only [List.set, List.getD_cons_succ]
        exact ih i j

theorem length_set_incr (l : List Nat) (i : Nat) :
    (l.set i (l.getD i 0 + 1)).length = l.length :=
  List.length_set l i _

theorem distribLoop_length (counts : List Nat) :
    ∀ (fuel : Nat) (slots : List Nat) (remaining dirIndex : Nat),
      (distribLoop counts fuel slots remaining dirIndex).length = slots.length := by
  intro fuel
  induction fuel with
  | zero => intro slots remaining dirIndex; rfl
  | succ fuel ih =>
    intro slots remaining dirIndex
    unfold distribLoop
    split
    · rfl
    · split
      · rw [ih, length_set_incr]
      · exact ih _ _ _

theorem distribLoop_getD_ge (counts : List Nat) :
    ∀ (fuel : Nat) (slots : List Nat) (remaining dirIndex j : Nat),
      slots.getD j 0 ≤ (distribLoop counts fuel slots remaining dirIndex).getD j 0 := by
  intro fuel
  induction fuel with
  | zero => intro slots remaining dirIndex j; exact Nat.le_refl _
  | succ fuel ih =>
    intro slots remaining dirIndex j
    unfold distribLoop
    split
    · exact Nat.le_refl _
    · split
      · exact Nat.le_trans (getD_le_getD_set_incr slots dirIndex j) (ih _ _ _ _)
      · exact ih _ _ _ _

theorem distribLoop_sum_le (counts : List Nat) :
    ∀ (fuel : Nat) (slots : List Nat) (remaining dirIndex : Nat),
      (distribLoop counts fuel slots remaining dirIndex).sum ≤ slots.sum + remaining := by
  intro fuel
  induction fuel with
  | zero => intro slots remaining dirIndex; exact Nat.le_add_right _ _
  | succ fuel ih =>
    intro slots remaining dirIndex
    unfold distribLoop
    split
    · exact Nat.le_add_right _ _
    · next hrem =>
      split
      · calc (distribLoop counts fuel _ (remaining - 1) _).sum
            ≤ (slots.set dirIndex (slots.getD dirIndex 0 + 1)).sum + (remaining - 1) := ih _ _ _
          _ ≤ slots.sum + 1 + (remaining - 1) := by
              exact Nat.add_le_add_right (sum_set_incr_le slots dirIndex) _
          _ ≤ slots.sum + remaining := by omega
      · exact ih _ _ _

theorem fillLoop_length_le {T : Type} (getName : T → String) (options : List T) :
    ∀ (pairs : List (String × Nat)) (slotsToFill : Nat),
      (fillLoop getName options pairs slotsToFill).length ≤ slotsToFill := by
  intro pairs
  induction pairs with
  | nil => intro slotsToFill; simp [fillLoop]
  | cons p rest ih =>
    intro slotsToFill
    obtain ⟨d, s⟩ := p
    unfold fillLoop
    dsimp only
    split
    · simp
    · split
      · exact Nat.le_trans (ih _) (Nat.le_refl _)
      · simp only [List.length_append]
        have h1 : ((List.drop s (sortByName getName (dirGroup getName options d))).take
            (min ((sortByName getName (dirGroup getName options d)).length - s) slotsToFill)).length ≤
            min ((sortByName getName (dirGroup getName options d)).length - s) slotsToFill := by
          rw [List.length_take]
          exact Nat.min_le_left _ _
        have h2 := ih (slotsToFill - min ((sortByName getName (dirGroup getName options d)).length - s) slotsToFill)
        have h3 : min ((sortByName getName (dirGroup getName options d)).length - s) slotsToFill ≤ slotsToFill :=
          Nat.min_le_right _ _
        omega

theorem zip_map_sum_le {α : Type} (f : α × Nat → Nat) (hf : ∀ p, f p ≤ p.2) :
    ∀ (ds : List α) (ss : List Nat), (((ds.zip ss).map f).sum ≤ ss.sum) := by
  intro ds
  induction ds with
  | nil => intro ss; simp
  | cons d ds ih =>
    intro ss
    cases ss with
    | nil => simp
    | cons s ss =>
      simp only [List.zip_cons_cons, List.map_cons, List.sum_cons]
      exact Nat.add_le_add (hf (d, s)) (ih ss)

theorem map_sum_le_length_mul {α : Type} (l : List α) (f : α → Nat) (c : Nat)
    (h : ∀ x ∈ l, f x ≤ c) : (l.map f).sum ≤ l.length * c := by
  induction l with
  | nil => simp
  | cons a l ih =>
    simp only [List.map_cons, List.sum_cons, List.length_cons, Nat.succ_mul]
    have h1 := h a (List.mem_cons_self _ _)
    have h2 := ih (fun x hx => h x (List.mem_cons_of_mem _ hx))
    omega

theorem groupSlots_length {T : Type} (getName : T → String) (options : List T)
    (maxDisplay : Nat) :
    (groupSlots getName options maxDisplay).length = (topLevelDirs getName options).length := by
  unfold groupSlots
  rw [distribLoop_length, List.length_map]

theorem groupSlots_sum_le {T : Type} (getName : T → String) (options : List T)
    (maxDisplay : Nat) : (groupSlots getName options maxDisplay).sum ≤ maxDisplay := by
  unfold groupSlots
  dsimp only
  set dirs := topLevelDirs getName options with hdirs
  set slots0 := dirs.map
    (fun d => min (maxDisplay / dirs.length) (dirGroup getName options d).length) with hslots0
  have hsum0 : slots0.sum ≤ maxDisplay := by
    calc slots0.sum ≤ dirs.length * (maxDisplay / dirs.length) := by
          apply map_sum_le_length_mul
          intro x _
          exact Nat.min_le_left _ _
      _ = (maxDisplay / dirs.length) * dirs.length := Nat.mul_comm _ _
      _ ≤ maxDisplay := Nat.div_mul_le_self _ _
  calc (distribLoop (groupCounts getName options) _ slots0 (maxDisplay - slots0.sum) 0).sum
      ≤ slots0.sum + (maxDisplay - slots0.sum) := distribLoop_sum_le _ _ _ _ _
    _ ≤ maxDisplay := by omega

theorem groupSlots_getD_ge {T : Type} (getName : T → String) (options : List T)
    (maxDisplay : Nat) (i : Nat) (hi : i < (topLevelDirs getName options).length) :
    min (maxDisplay / (topLevelDirs getName options).length)
        (dirGroup getName options ((topLevelDirs getName options)[i])).length ≤
      (groupSlots getName options maxDisplay).getD i 0 := by
  unfold groupSlots
  dsimp only
  refine Nat.le_trans ?_ (distribLoop_getD_ge _ _ _ _ _ _)
  have hlt : i < ((topLevelDirs getName options).map
      (fun d => min (maxDisplay / (topLevelDirs getName options).length)
        (dirGroup getName options d).length)).length := by
    simpa using hi
  rw [List.getD_eq_getElem?_getD, List.getElem?_eq_getElem hlt]
  rw [List.getElem_map]
  simp

theorem groupChunks_length_le {T : Type} (getName : T → String) (options : List T)
    (maxDisplay : Nat) : (groupChunks getName options maxDisplay).length ≤ maxDisplay := by
  unfold groupChunks
  rw [List.length_flatten, List.map_map]
  refine Nat.le_trans ?_ (groupSlots_sum_le getName options maxDisplay)
  apply zip_map_sum_le
  intro p
  simp only [Function.comp_apply, List.length_take]
  exact Nat.min_le_left _ _

/-- Part one of claim C9: the grouped display list never exceeds the frame
budget. -/
theorem groupOptions_length_le {T : Type} (getName : T → String) (maxDisplay : Nat)
    (options : List T) :
    (groupOptionsByDirectory getName maxDisplay options).length ≤ maxDisplay := by
  unfold groupOptionsByDirectory
  dsimp only
  split
  · next hle =>
    rw [List.length_flatten, List.map_map]
    have hmap : ((topLevelDirs getName options).map
        (List.length ∘ fun d => sortByName getName (dirGroup getName options d))) =
        ((topLevelDirs getName options).map
          (fun d => (options.filter (fun o => topLevelDir (getName o) = d)).length)) := by
      apply List.map_congr_left
      intro d _
      simp only [Function.comp_apply]
      exact (List.mergeSort_perm _ _).length_eq
    rw [hmap]
    rw [sum_length_filter_eq (fun o => topLevelDir (getName o)) _ _
      (topLevelDirs_nodup getName options)
      (fun o ho => (mem_topLevelDirs getName options _).mpr ⟨o, ho, rfl⟩)]
    exact hle
  · split
    · simp
    · simp only [List.length_take]
      exact Nat.min_le_left _ _

/-- Part two of claim C9: whenever the number of top-level groups fits the
budget, every group with at least one matching item contributes at least one
row to the grouped display list. -/
theorem groupOptions_covers {T : Type} (getName : T → String) (maxDisplay : Nat)
    (options : List T) (d : String)
    (hd : d ∈ topLevelDirs getName options)
    (hbud : (topLevelDirs getName options).length ≤ maxDisplay) :
    ∃ o ∈ groupOptionsByDirectory getName maxDisplay options,
      topLevelDir (getName o) = d := by
  obtain ⟨o0, ho0, ho0d⟩ := (mem_topLevelDirs getName options d).mp hd
  have hgroup_mem : o0 ∈ dirGroup getName options d := by
    unfold dirGroup
    exact List.mem_filter.mpr ⟨ho0, by simp [ho0d]⟩
  have hgroup_pos : 1 ≤ (dirGroup getName options d).length :=
    List.length_pos.mpr (List.ne_nil_of_mem hgroup_mem)
  unfold groupOptionsByDirectory
  dsimp only
  split
  · refine ⟨o0, ?_, ho0d⟩
    rw [List.mem_flatten]
    exact ⟨sortByName getName (dirGroup getName options d),
      List.mem_map.mpr ⟨d, hd, rfl⟩,
      (List.mergeSort_perm _ _).mem_iff.mpr hgroup_mem⟩
  · split
    · next hn => exact absurd (List.length_eq_zero.mp hn ▸ hd) (List.not_mem_nil d)
    · next hn =>
      set dirs := topLevelDirs getName options with hdirs
      set slots1 := groupSlots getName options maxDisplay with hslots1
      have hslots1_len : slots1.length = dirs.length := groupSlots_length getName options maxDisplay
      obtain ⟨i, hi, hdi⟩ := List.mem_iff_getElem.mp hd
      have hi1 : i < slots1.length := by omega
      have hzip_len : (dirs.zip slots1).length = dirs.length := by
        rw [List.length_zip, hslots1_len, Nat.min_self]
      have hizip : i < (dirs.zip slots1).length := by omega
      have hpair : (dirs.zip slots1)[i] = (d, slots1[i]) := by
        rw [List.getElem_zip, hdi]
      have hpair_mem : (d, slots1[i]) ∈ dirs.zip slots1 :=
        hpair ▸ List.getElem_mem hizip
      -- the slot of directory `d` is at least 1
      have hbase : 1 ≤ maxDisplay / dirs.length := by
        rw [Nat.one_le_div_iff (by omega)]
        exact hbud
      have hslot_ge : 1 ≤ slots1[i] := by
        have h1 : min (maxDisplay / dirs.length)
            (dirGroup getName options dirs[i]).length ≤ slots1.getD i 0 :=
          groupSlots_getD_ge getName options maxDisplay i hi
        have h2 : slots1.getD i 0 = slots1[i] := by
          rw [List.getD_eq_getElem?_getD, List.getElem?_eq_getElem hi1]
          rfl
        rw [hdi] at h1
        have h3 : 1 ≤ min (maxDisplay / dirs.length) (dirGroup getName options d).length :=
          le_min hbase hgroup_pos
        omega
      -- the chunk of directory `d` is non-empty and lands in the flattened list
      have hsorted_len : (sortByName getName (dirGroup getName options d)).length =
          (dirGroup getName options d).length := (List.mergeSort_perm _ _).length_eq
      have hchunk_pos :
          0 < ((sortByName getName (dirGroup getName options d)).take slots1[i]).length := by
        rw [List.length_take, hsorted_len]
        omega
      obtain ⟨o, ho⟩ := List.exists_mem_of_ne_nil _ (List.ne_nil_of_length_pos hchunk_pos)
      have ho_group : o ∈ dirGroup getName options d :=
        (List.mergeSort_perm _ _).mem_iff.mp (((List.take_sublist _ _).mem ho))
      have ho_dir : topLevelDir (getName o) = d := by
        have := (List.mem_filter.mp ho_group).2
        simpa using this
      have ho_chunks : o ∈ groupChunks getName options maxDisplay := by
        unfold groupChunks
        rw [List.mem_flatten]
        exact ⟨(sortByName getName (dirGroup getName options d)).take slots1[i],
          List.mem_map.mpr ⟨(d, slots1[i]), hpair_mem, rfl⟩, ho⟩
      -- the final `.take maxDisplay` does not cut anything off
      have hchunks_le : (groupChunks getName options maxDisplay).length ≤ maxDisplay :=
        groupChunks_length_le getName options maxDisplay
      have hextras_le :
          (fillLoop getName options (dirs.zip slots1)
            (maxDisplay - (groupChunks getName options maxDisplay).length)).length ≤
          maxDisplay - (groupChunks getName options maxDisplay).length :=
        fillLoop_length_le getName options _ _
      have htot : ((groupChunks getName options maxDisplay) ++
          fillLoop getName options (dirs.zip slots1)
            (maxDisplay - (groupChunks getName options maxDisplay).length)).length ≤
          maxDisplay := by
        rw [List.length_append]
        omega
      rw [List.take_of_length_le htot]
      exact ⟨o, List.mem_append_left _ ho_chunks, ho_dir⟩

/-! ## C3: the subsequence matcher -/

/-- The greedy `indexOf` scan of `findMatches` succeeds exactly on
subsequences: taking the first occurrence of each input character is
optimal. -/
theorem subseqGreedy_iff_sublist (cs ns : List Char) :
    subseqGreedy cs ns = true ↔ cs.Sublist ns := by
  induction ns generalizing cs with
  | nil =>
    cases cs with
    | nil => simp [subseqGreedy]
    | cons c cs' => simp [subseqGreedy]
  | cons n ns ih =>
    cases cs with
    | nil => simp [subseqGreedy]
    | cons c cs' =>
      rw [show subseqGreedy (c :: cs') (n :: ns) =
            if n = c then subseqGreedy cs' ns else subseqGreedy (c :: cs') ns from rfl]
      by_cases h : n = c
      · subst h
        rw [if_pos rfl, ih]
        exact List.cons_sublist_cons.symm
      · rw [if_neg h, ih]
        constructor
        · intro hs
          exact hs.cons _
        · intro hs
          cases hs with
          | cons _ h' => exact h'
          | cons₂ => exact absurd rfl h

/-- Claim C3: `findMatches` on empty input returns every option; otherwise it
is exactly the order-preserving filter of the options whose lower-cased name
passes the greedy scan; and the greedy scan accepts precisely when there is a
strictly increasing index sequence into the lower-cased name (an order
embedding of index sets) whose characters equal the lower-cased input in
order. -/
theorem C3_theorem {T : Type} (input : String) (options : List T) (getName : T → String) :
    findMatches "" options getName = options ∧
    findMatches input options getName =
      options.filter (fun opt => subseqGreedy (lowerChars input) (lowerChars (getName opt))) ∧
    (∀ opt, subseqGreedy (lowerChars input) (lowerChars (getName opt)) = true ↔
      ∃ f : Fin (lowerChars input).length ↪o Fin (lowerChars (getName opt)).length,
        ∀ ix, (lowerChars input).get ix = (lowerChars (getName opt)).get (f ix)) := by
  refine ⟨rfl, ?_, ?_⟩
  · unfold findMatches
    by_cases h : input = ""
    · subst h
      simp [lowerChars, subseqGreedy]
    · simp [h]
  · intro opt
    rw [subseqGreedy_iff_sublist]
    exact List.sublist_iff_exists_fin_orderEmbedding_get_eq

/-! ## C5: Ctrl-C -/

/-- A transformation that succeeds, returning the selected names. -/
def tNamesFix : Transformation String (List String) :=
  { name := "names", description := "", apply := fun sel g => .ok (sel.map g) }

/-- A transformation whose `apply` rejects with `"disk full"`. -/
def tBadFix : Transformation String (List String) :=
  { name := "bad", description := "", apply := fun _ _ => .error "disk full" }

/-- A running session with `"a"` selected and the `names` transformation
active. -/
def ctxC5 : SelectionContext String (List String) :=
  { currentInput := ""
    selectedOptions := ["a"]
    availableOptions := ["a", "b"]
    errorMessage := ""
    selectionTypes := ["single", "range", "selectAll", "unselectAll", "done"]
    currentSelectionTypeIndex := 0
    activeTransformations := ["names"]
    availableTransformations := [tNamesFix]
    inputMode := .input }

/-- The host state after the initial `updateState()` of the session in
`ctxC5`. -/
def stC5 : HostState String (List String) :=
  { selections := some ["a"], selectedSummary := "a", transformations := none }

/-- Claim C5 is false on the code: pressing Ctrl-C in the session `ctxC5`
resolves the promise with the current (non-empty) `selections` and with the
active transformation applied - the `\x03` branch of `handleInput` calls the
same `cleanupTerminal` as `done`, which neither clears `selected` nor skips
the transformation loop. -/
theorem C5_counterexample :
    ¬ (∀ st : HostState String (List String),
        (handleInput id none "\x03"
            { context := ctxC5, state := stC5, resolved := none }).resolved = some (.ok st) →
        st.selections = some [] ∧ st.transformations = some []) := by
  intro h
  have h2 := h
    { selections := some ["a"], selectedSummary := "a",
      transformations := some [("names", ["a"])] } rfl
  simp at h2

/-- Claim C5, amended: Ctrl-C terminates the session immediately, but through
the same teardown path as `done`: `selected` is not cleared, the resolved
state keeps the current `selections` entry, and every active transformation
is applied during teardown (its results stored under `state.transformations`)
rather than skipped. -/
theorem C5_amended {T V : Type} [DecidableEq T] (getName : T → String)
    (ctx : SelectionContext T V) (st : HostState T V) :
    handleInput getName none "\x03" { context := ctx, state := st, resolved := none } =
      cleanupTerminal getName { context := ctx, state := st, resolved := none } ∧
    (cleanupTerminal getName
        { context := ctx, state := st, resolved := none }).context.selectedOptions =
      ctx.selectedOptions ∧
    (∀ st2,
      (cleanupTerminal getName
          { context := ctx, state := st, resolved := none }).resolved = some (.ok st2) →
      st2.selections = st.selections ∧
      ∃ res,
        processTransformations ctx.availableTransformations getName ctx.selectedOptions
            ctx.activeTransformations = .ok res ∧
        st2.transformations = some res) := by
  refine ⟨rfl, ?_, ?_⟩
  · unfold cleanupTerminal
    cases h : processTransformations ctx.availableTransformations getName ctx.selectedOptions
        ctx.activeTransformations <;> simp [h]
  · intro st2 h2
    unfold cleanupTerminal at h2
    cases h : processTransformations ctx.availableTransformations getName ctx.selectedOptions
        ctx.activeTransformations <;> simp [h] at h2
    subst h2
    exact ⟨rfl, _, rfl, rfl⟩

/-- Witness for `C5_amended` at the concrete session `ctxC5`. -/
theorem C5_amended_witness :
    (cleanupTerminal id
        { context := ctxC5, state := stC5, resolved := none }).context.selectedOptions =
      ctxC5.selectedOptions ∧
    ({ selections := some ["a"], selectedSummary := "a",
        transformations := some [("names", ["a"])] : HostState String (List String)}.selections =
      stC5.selections ∧
      ∃ res,
        processTransformations ctxC5.availableTransformations id ctxC5.selectedOptions
            ctxC5.activeTransformations = .ok res ∧
        (some [("names", ["a"])] : Option (List (String × List String))) = some res) :=
  ⟨(C5_amended id ctxC5 stC5).2.1,
   (C5_amended id ctxC5 stC5).2.2
     { selections := some ["a"], selectedSummary := "a",
       transformations := some [("names", ["a"])] } rfl⟩

/-! ## C6: transformation failures during teardown -/

/-- The session of the C6 scenario: transformations `bad` (rejects with
`"disk full"`) and `names` (succeeds) are both active. -/
def ctxC6 : SelectionContext String (List String) :=
  { ctxC5 with
      activeTransformations := ["bad", "names"]
      availableTransformations := [tBadFix, tNamesFix] }

/-- Evaluation of the code at C6's failing input: with active transformations
`["bad", "names"]` where `bad.apply` rejects with `"disk full"`, the teardown
loop of `cleanupTerminal` propagates the rejection (there is no per-name
try/catch), so the successful `names` transformation contributes nothing, no
`"Error: disk full"` string is stored, `state.transformations` is never
assigned, and `resolve` is never reached - the session hangs instead of
resolving, contradicting the claim (which the unreachable per-name handler in
`jobs/prompt-file-context.ts` lines 150-176 was meant to implement). -/
theorem C6_code_bug :
    processTransformations [tBadFix, tNamesFix] id ["a"] ["bad", "names"] =
      .error "disk full" ∧
    (cleanupTerminal id { context := ctxC6, state := stC5, resolved := none }).resolved =
      some (.error "disk full") ∧
    (cleanupTerminal id
        { context := ctxC6, state := stC5, resolved := none }).state.transformations = none :=
  ⟨rfl, rfl, rfl⟩

/-! ## C7: what changes the input mode -/

/-- A session sitting in `command` mode with the filter `"done"` typed. -/
def ctxC7 : SelectionContext String Unit :=
  { mkCtx "done" [] ["a"] with inputMode := .command }

/-- The host state of the C7 scenario. -/
def stC7 : HostState String Unit :=
  { selections := none, selectedSummary := "", transformations := none }

/-- Claim C7 is false on the code: pressing Enter (not Tab) in `command` mode
with input `"done"` switches `inputMode` back to `input` - `executeCommand`
changes the mode on a successful command match, so Tab is not the only
keystroke that changes `inputMode`. -/
theorem C7_counterexample :
    ctxC7.inputMode = InputMode.command ∧
    (handleInput id none "\r"
        { context := ctxC7, state := stC7, resolved := none }).context.inputMode =
      InputMode.input := by
  exact ⟨rfl, by decide⟩

/-- Claim C7, amended: Tab (`switchInputMode`) always clears `currentInput`
and `errorMessage` on entering the new mode, and a Tab keystroke dispatches
exactly to `switchInputMode`; but Tab is not the only input event that
changes `inputMode`: the Enter-dispatched `executeCommand` also sets
`inputMode` back to `input` when a command-mode match succeeds. -/
theorem C7_amended {T V : Type} [DecidableEq T] (getName : T → String)
    (maxSelections : Option Nat) (ctx : SelectionContext T V) (st : HostState T V) :
    ((switchInputMode ctx).currentInput = "" ∧ (switchInputMode ctx).errorMessage = "") ∧
    (handleInput getName none "\t" { context := ctx, state := st, resolved := none }).context =
      switchInputMode ctx ∧
    (∀ idx, ctx.inputMode = .command → ctx.currentInput ≠ "" →
      bestCommandMatch ctx.selectionTypes (lowerChars ctx.currentInput) = some idx →
      (executeCommand getName maxSelections
          { context := ctx, state := st, resolved := none }).context.inputMode = .input) := by
  refine ⟨⟨rfl, rfl⟩, rfl, ?_⟩
  intro idx hmode hinput hmatch
  unfold executeCommand
  simp only [hmode, hinput, hmatch]
  simp [hinput]

/-- Witness for `C7_amended` at the concrete session `ctxC7`. -/
theorem C7_amended_witness :
    (executeCommand id none
        { context := ctxC7, state := stC7, resolved := none }).context.inputMode =
      InputMode.input :=
  (C7_amended id none ctxC7 stC7).2.2 4 rfl (by decide) (by decide)

/-! ## C8: malformed or out-of-bounds ranges -/

/-- Claim C8: a `range` execution whose `filterText` does not parse as
digits-dash-digits sets the error `"Enter range (e.g., 3-5)"` and leaves the
context otherwise untouched; one that parses but violates
`1 ≤ start ≤ end ≤ |available|` sets the descriptive bounds error; in both
cases `selected` is unchanged (the whole context is, except the message). -/
theorem C8_theorem {T V : Type} [DecidableEq T] (maxSelections : Option Nat)
    (ctx : SelectionContext T V) :
    (parseRange ctx.currentInput = none →
      handleRangeSelection maxSelections ctx =
        ({ ctx with errorMessage := "Enter range (e.g., 3-5)" }, false)) ∧
    (∀ s e, parseRange ctx.currentInput = some (s, e) →
      ¬(s ≤ e ∧ 1 ≤ s ∧ e ≤ ctx.availableOptions.length) →
      handleRangeSelection maxSelections ctx =
        ({ ctx with
            errorMessage :=
              "Invalid range: must be between 1 and " ++
                toString ctx.availableOptions.length }, false)) := by
  constructor
  · intro hp
    unfold handleRangeSelection
    simp [hp]
  · intro s e hp hb
    unfold handleRangeSelection
    simp [hp, hb]

/-- Witness for `C8_theorem`: the malformed input `"abc"` and the
out-of-bounds input `"2-9"` against one available item. -/
theorem C8_theorem_witness :
    handleRangeSelection none (mkCtx "abc" [] ["a"]) =
      ({ mkCtx "abc" [] ["a"] with errorMessage := "Enter range (e.g., 3-5)" }, false) ∧
    handleRangeSelection none (mkCtx "2-9" [] ["a"]) =
      ({ mkCtx "2-9" [] ["a"] with
          errorMessage := "Invalid range: must be between 1 and 1" }, false) :=
  ⟨(C8_theorem none (mkCtx "abc" [] ["a"])).1 (by decide),
   (C8_theorem none (mkCtx "2-9" [] ["a"])).2 2 9 (by decide) (by decide)⟩

/-! ## C9: the display budget -/

/-- Claim C9: for every frame, the prepared option rows never exceed the
frame's computed `maxDisplay` budget, and whenever the number of top-level
directory groups of the combined display list (selected plus matching
unselected) is at most the budget, every group with at least one matching
item contributes at least one row. -/
theorem C9_theorem {T V : Type} [DecidableEq T] (getName : T → String) (maxDisplay : Nat)
    (ctx : SelectionContext T V) :
    (prepareDisplayOptions getName maxDisplay ctx).length ≤ maxDisplay ∧
    (∀ d ∈ topLevelDirs getName (totalOptionsToDisplay getName ctx),
      (topLevelDirs getName (totalOptionsToDisplay getName ctx)).length ≤ maxDisplay →
      ∃ o ∈ prepareDisplayOptions getName maxDisplay ctx,
        topLevelDir (getName o) = d) := by
  constructor
  · exact groupOptions_length_le getName maxDisplay (totalOptionsToDisplay getName ctx)
  · intro d hd hbud
    exact groupOptions_covers getName maxDisplay (totalOptionsToDisplay getName ctx) d hd hbud

/-- Witness for `C9_theorem`: a frame with two directory groups and budget
5 shows the budget bound and that group `"x"` contributes a row. -/
theorem C9_theorem_witness :
    (prepareDisplayOptions id 5 (mkCtx "" [] ["x/a", "y/b"])).length ≤ 5 ∧
    ∃ o ∈ prepareDisplayOptions id 5 (mkCtx "" [] ["x/a", "y/b"]),
      topLevelDir (id o) = "x" :=
  ⟨(C9_theorem id 5 (mkCtx "" [] ["x/a", "y/b"])).1,
   (C9_theorem id 5 (mkCtx "" [] ["x/a", "y/b"])).2 "x"
     (by rw [mem_topLevelDirs]; decide)
     (by
       unfold topLevelDirs sortStrings
       rw [(List.mergeSort_perm _ _).length_eq]
       decide)⟩

/-! ## C10: pre-seeded selections -/

/-- Claim C10: when the incoming state map carries a `selections` array, the
session context starts with exactly that list (a copy) in `selectedOptions`,
so those items count toward the selection length used by the options header
and by `canAddSelection`; without the key, the session starts empty. -/
theorem C10_theorem {T V : Type} (options sel : List T)
    (trans : List (Transformation T V)) (cmds : Option (List String))
    (custom : List String) (m : Nat) :
    (initializeContext options (some sel) trans cmds custom).selectedOptions = sel ∧
    (initializeContext options none trans cmds custom).selectedOptions = [] ∧
    canAddSelection (initializeContext options (some sel) trans cmds custom).selectedOptions
        (some m) = decide (sel.length < m) :=
  ⟨rfl, rfl, rfl⟩

end Dialectiq
